import Mathlib

/-!
Verification of the vue-to-acf mapping pipeline (src/index.js).

The embedding mirrors the pure core of the program:
* `snakeCaseToWords`  — label generation (capitalise first char, then the
  global regex replace of `/([a-z0-9])([A-Z])/g` by `"$1 $2"`);
* `getAcfFieldType`   — ordered name rules, then the primitive-type table;
* `getAcfFieldConfig` — label/name/type plus the sequentially overwritten
  `extra` settings object;
* `assembleGroup`     — the pure part of `parseComponent` (group key, title,
  per-field keys, static settings).

JavaScript `undefined` (an unmapped primitive type) is modelled by `none`;
JS objects whose key sets vary (`extra`, `choices`) are modelled as ordered
association lists over a small JSON value type.
-/

/-- A JSON-like value, enough for the settings objects the program builds. -/
inductive JValue where
  | s : String → JValue
  | n : Int → JValue
  | o : List (String × JValue) → JValue

/-- A component prop as delivered by the metadata provider:
`{ name, type }`, both strings. -/
structure VueProp where
  name : String
  type : String
deriving DecidableEq

/-- Is `pre` a prefix of `l`?  Character-list core of lodash `startsWith`. -/
def strStarts : List Char → List Char → Bool
  | [], _ => true
  | _ :: _, [] => false
  | p :: ps, c :: cs => p == c && strStarts ps cs

/-- lodash `startsWith(s, target)` (with the default position 0). -/
def jsStartsWith (s target : String) : Bool :=
  strStarts target.data s.data

/-- JS `String.prototype.toLowerCase` restricted to basic latin, which is all
the program ever feeds it (type tags, component names). -/
def jsToLower (s : String) : String :=
  ⟨s.data.map Char.toLower⟩

/-- The regex character class `[a-z]`. -/
def reLower (c : Char) : Bool := 97 ≤ c.toNat && c.toNat ≤ 122

/-- The regex character class `[A-Z]`. -/
def reUpper (c : Char) : Bool := 65 ≤ c.toNat && c.toNat ≤ 90

/-- The regex character class `[0-9]`. -/
def reDigit (c : Char) : Bool := 48 ≤ c.toNat && c.toNat ≤ 57

/-- A match position of the regex `/([a-z0-9])([A-Z])/`. -/
def isBnd (a b : Char) : Bool := (reLower a || reDigit a) && reUpper b

/-- `string.replace(/([a-z0-9])([A-Z])/g, "$1 $2")` on the character list:
leftmost match, both matched characters are consumed, scanning resumes after
the replacement. -/
def replaceJS : List Char → List Char
  | a :: b :: rest =>
      if isBnd a b then a :: ' ' :: b :: replaceJS rest
      else a :: replaceJS (b :: rest)
  | l => l

/-- `string.charAt(0).toUpperCase() + string.slice(1)`. -/
def capFirst : List Char → List Char
  | [] => []
  | c :: cs => c.toUpper :: cs

/-- `snakeCaseToWords` from src/index.js lines 90–93. -/
def snakeCaseToWords (s : String) : String :=
  ⟨replaceJS (capFirst s.data)⟩

/-- The fallback lookup object `{string:'text', boolean:'true_false',
number:'number', array:'repeater'}[k]`; a missing key is `undefined`. -/
def typeTable (k : String) : Option String :=
  if k = "string" then some "text"
  else if k = "boolean" then some "true_false"
  else if k = "number" then some "number"
  else if k = "array" then some "repeater"
  else none

/-- `getAcfFieldType` from src/index.js lines 95–126. -/
def getAcfFieldType (prop : VueProp) : Option String :=
  if jsStartsWith prop.name "image" then some "image"
  else if prop.name = "button" then some "acfe_advanced_link"
  else if prop.name = "body" then some "wysiwyg"
  else if prop.name = "align" ∨ prop.name = "halign" ∨ prop.name = "valign"
      ∨ prop.name = "text-align" then some "button_group"
  else if prop.name = "buttons" then some "repeater"
  else if prop.name = "images" then some "gallery"
  else typeTable (jsToLower prop.type)

/-- The sequential overwrites of the `extra` object in `getAcfFieldConfig`
(src/index.js lines 137–185), including the source's comparison of the
resolved type against the string `"images"`. -/
def getExtra (name : String) (type : Option String) : List (String × JValue) :=
  let extra : List (String × JValue) := []
  let extra := if type = some "wysiwyg" then
    [("tabs", JValue.s "visual"), ("toolbar", JValue.s "simple"),
     ("media_upload", JValue.n 0), ("delay", JValue.n 1)] else extra
  let extra := if type = some "true_false" then [("ui", JValue.n 1)] else extra
  let extra := if type = some "image" ∨ type = some "images" then
    [("return_format", JValue.s "array"), ("preview_size", JValue.s "thumbnail")]
    else extra
  let extra := if type = some "repeater" then [("layout", JValue.s "row")] else extra
  let extra := if name = "valign" then
    [("choices", JValue.o [("start", JValue.s "Top"), ("center", JValue.s "Center"),
      ("end", JValue.s "Bottom")])] else extra
  let extra := if name = "text-align" ∨ name = "halign" ∨ name = "align" then
    [("choices", JValue.o [("left", JValue.s "Left"), ("center", JValue.s "Center"),
      ("right", JValue.s "Right")])] else extra
  extra

/-- The object returned by `getAcfFieldConfig` (src/index.js lines 128–188):
label, name, resolved type (`none` models `undefined`), and the final value
of `extra` spread at the end. -/
structure FieldConfig where
  label : String
  name : String
  type : Option String
  extra : List (String × JValue)

/-- `getAcfFieldConfig` from src/index.js lines 128–188. -/
def getAcfFieldConfig (prop : VueProp) : FieldConfig :=
  { label := snakeCaseToWords prop.name
    name := prop.name
    type := getAcfFieldType prop
    extra := getExtra prop.name (getAcfFieldType prop) }

/-- A field as pushed in `parseComponent`: `{ key, ...getAcfFieldConfig(prop) }`. -/
structure GroupField where
  key : String
  label : String
  name : String
  type : Option String
  extra : List (String × JValue)

/-- The assembled group document (`config` in src/index.js lines 62–69). -/
structure FieldGroupConfig where
  key : String
  title : String
  fields : List GroupField
  label_placement : String
  active : Bool
  acfe_categories : List (String × String)

/-- The pure core of `parseComponent` (src/index.js lines 50–69): group key,
per-prop fields in declaration order, title and static settings. -/
def assembleGroup (componentName : String) (props : List VueProp) : FieldGroupConfig :=
  let groupKey := "group_" ++ jsToLower componentName ++ "_component"
  { key := groupKey
    title := "Component: " ++ componentName
    fields := props.map (fun prop =>
      let c := getAcfFieldConfig prop
      { key := groupKey ++ "_" ++ prop.name
        label := c.label, name := c.name, type := c.type, extra := c.extra })
    label_placement := "left"
    active := false
    acfe_categories := [("component", "component")] }

/-! Spec-side definitions, written from the specification's words, to be
compared with the source embeddings above. -/

/-- Spec-side fallback (§4.1 rule 7): a four-entry table consulted with the
case-insensitively compared type. -/
def specFallbackTable : String → Option String
  | "string" => some "text"
  | "boolean" => some "true_false"
  | "number" => some "number"
  | "array" => some "repeater"
  | _ => none

/-- Spec-side resolver (§4.1): the ordered, first-match-wins rule list as the
specification states it, name rules before the type rule. -/
def specResolve (p : VueProp) : Option String :=
  if jsStartsWith p.name "image" then some "image"
  else if p.name = "button" then some "acfe_advanced_link"
  else if p.name = "body" then some "wysiwyg"
  else if ["align", "halign", "valign", "text-align"].contains p.name then
    some "button_group"
  else if p.name = "buttons" then some "repeater"
  else if p.name = "images" then some "gallery"
  else specFallbackTable (jsToLower p.type)

/-- Spec-side naming transform (§4.2): insert a single space at every
position where a lowercase letter or digit is immediately followed by an
uppercase letter, changing nothing else. -/
def specInsertSpaces : List Char → List Char
  | [] => []
  | [a] => [a]
  | a :: b :: rest =>
      if isBnd a b then a :: ' ' :: specInsertSpaces (b :: rest)
      else a :: specInsertSpaces (b :: rest)

/-- The six name-based rules of the resolver, as a predicate on the name. -/
def nameRuleHit (name : String) : Bool :=
  jsStartsWith name "image" || name = "button" || name = "body" ||
  name = "align" || name = "halign" || name = "valign" || name = "text-align" ||
  name = "buttons" || name = "images"

/-! Helper lemmas. -/

theorem char_toNat_ofNat {n : Nat} (h : n.isValidChar) : (Char.ofNat n).toNat = n := by
  rw [Char.ofNat, dif_pos h]
  rfl

theorem toUpper_of_not_lower {c : Char} (h : ¬(c.toNat ≥ 97 ∧ c.toNat ≤ 122)) :
    c.toUpper = c := by
  rw [Char.toUpper, if_neg h]

theorem toNat_toUpper_of_lower {c : Char} (h : c.toNat ≥ 97 ∧ c.toNat ≤ 122) :
    c.toUpper.toNat = c.toNat - 32 := by
  rw [Char.toUpper, if_pos h]
  exact char_toNat_ofNat (Or.inl (by omega))

theorem toUpper_idem (c : Char) : c.toUpper.toUpper = c.toUpper := by
  by_cases h : c.toNat ≥ 97 ∧ c.toNat ≤ 122
  · have h2 := toNat_toUpper_of_lower h
    exact toUpper_of_not_lower (by omega)
  · rw [toUpper_of_not_lower h, toUpper_of_not_lower h]

theorem isBnd_of_reUpper {b c : Char} (h : reUpper b = true) : isBnd b c = false := by
  simp only [reUpper, Bool.and_eq_true, decide_eq_true_eq] at h
  simp only [isBnd, reLower, reDigit, Bool.or_eq_false_iff, Bool.and_eq_false_iff]
  left
  constructor <;> [left; skip] <;> simp <;> omega

theorem specInsertSpaces_cons (a : Char) (l : List Char) :
    ∃ t, specInsertSpaces (a :: l) = a :: t := by
  cases l with
  | nil => exact ⟨[], rfl⟩
  | cons b rest =>
      by_cases h : isBnd a b = true
      · exact ⟨' ' :: specInsertSpaces (b :: rest), by rw [specInsertSpaces, if_pos h]⟩
      · exact ⟨specInsertSpaces (b :: rest), by rw [specInsertSpaces, if_neg h]⟩

theorem specInsertSpaces_cons_upper {b : Char} (h : reUpper b = true) (rest : List Char) :
    specInsertSpaces (b :: rest) = b :: specInsertSpaces rest := by
  cases rest with
  | nil => rfl
  | cons c r => rw [specInsertSpaces, if_neg (by simp [isBnd_of_reUpper h])]

theorem replaceJS_eq (l : List Char) : replaceJS l = specInsertSpaces l := by
  induction l using replaceJS.induct with
  | case1 a b rest h ih =>
      have hb : reUpper b = true := by
        simp only [isBnd, Bool.and_eq_true] at h
        exact h.2
      rw [replaceJS, if_pos h, specInsertSpaces, if_pos h,
        specInsertSpaces_cons_upper hb, ih]
  | case2 a b rest h ih =>
      rw [replaceJS, if_neg h, specInsertSpaces, if_neg h, ih]
  | case3 l h => cases l with
      | nil => rfl
      | cons a t => cases t with
          | nil => rfl
          | cons b r => exact absurd rfl (h a b r)

theorem isBnd_space_left (b : Char) : isBnd ' ' b = false := by
  simp [isBnd, reLower, reDigit]

theorem isBnd_space_right (a : Char) : isBnd a ' ' = false := by
  simp [isBnd, reUpper]

theorem chain'_specInsertSpaces (l : List Char) :
    List.Chain' (fun a b => isBnd a b = false) (specInsertSpaces l) := by
  induction l using specInsertSpaces.induct with
  | case1 => simp [specInsertSpaces]
  | case2 a => simp [specInsertSpaces]
  | case3 a b rest h ih =>
      rw [specInsertSpaces, if_pos h]
      obtain ⟨t, ht⟩ := specInsertSpaces_cons b rest
      rw [ht] at ih ⊢
      exact List.Chain'.cons (isBnd_space_right a)
        (List.Chain'.cons (isBnd_space_left b) ih)
  | case4 a b rest h ih =>
      rw [specInsertSpaces, if_neg h]
      obtain ⟨t, ht⟩ := specInsertSpaces_cons b rest
      rw [ht] at ih ⊢
      exact List.Chain'.cons (by simpa using h) ih

theorem specInsertSpaces_id {l : List Char}
    (h : List.Chain' (fun a b => isBnd a b = false) l) : specInsertSpaces l = l := by
  induction l using specInsertSpaces.induct with
  | case1 => rfl
  | case2 a => rfl
  | case3 a b rest hb ih =>
      rw [List.chain'_cons] at h
      rw [hb] at h
      exact absurd h.1 (by simp)
  | case4 a b rest hb ih =>
      rw [specInsertSpaces, if_neg hb]
      rw [List.chain'_cons] at h
      rw [ih h.2]

theorem capFirst_fix (l : List Char) :
    capFirst (specInsertSpaces (capFirst l)) = specInsertSpaces (capFirst l) := by
  cases l with
  | nil => rfl
  | cons c cs =>
      obtain ⟨t, ht⟩ := specInsertSpaces_cons c.toUpper cs
      rw [capFirst, ht, capFirst, toUpper_idem]

theorem snakeCaseToWords_eq (s : String) :
    snakeCaseToWords s = ⟨specInsertSpaces (capFirst s.data)⟩ := by
  rw [snakeCaseToWords, replaceJS_eq]

theorem typeTable_eq (t : String) : typeTable t = specFallbackTable t := by
  unfold typeTable specFallbackTable
  split_ifs with h1 h2 h3 h4
  · subst h1; rfl
  · subst h2; rfl
  · subst h3; rfl
  · subst h4; rfl
  · split <;> simp_all

theorem resolve_eq (p : VueProp) : getAcfFieldType p = specResolve p := by
  rw [getAcfFieldType, specResolve, typeTable_eq]
  have h4 : (["align", "halign", "valign", "text-align"].contains p.name = true) =
      (p.name = "align" ∨ p.name = "halign" ∨ p.name = "valign" ∨ p.name = "text-align") := by
    simp [List.contains]
  simp only [h4]

theorem typeTable_cases (t : String) :
    typeTable t = none ∨ typeTable t = some "text" ∨ typeTable t = some "true_false" ∨
    typeTable t = some "number" ∨ typeTable t = some "repeater" := by
  unfold typeTable
  split_ifs <;> simp

theorem no_gallery (p : VueProp) : getAcfFieldType p ≠ some "gallery" := by
  intro h
  rw [getAcfFieldType] at h
  split_ifs at h with h1 h2 h3 h4 h5 h6
  · simp at h
  · simp at h
  · simp at h
  · simp at h
  · simp at h
  · rw [h6] at h1
    exact absurd (by decide) h1
  · rcases typeTable_cases (jsToLower p.type) with hc | hc | hc | hc | hc <;> simp_all

theorem resolve_image_startsWith {p : VueProp} (h : getAcfFieldType p = some "image") :
    jsStartsWith p.name "image" = true := by
  rw [getAcfFieldType] at h
  split_ifs at h with h1 h2 h3 h4 h5 h6
  · exact h1
  · simp at h
  · simp at h
  · simp at h
  · simp at h
  · simp at h
  · rcases typeTable_cases (jsToLower p.type) with hc | hc | hc | hc | hc <;> simp_all

theorem image_extra {p : VueProp} (h : getAcfFieldType p = some "image") :
    (getAcfFieldConfig p).extra =
      [("return_format", JValue.s "array"), ("preview_size", JValue.s "thumbnail")] := by
  have hsw := resolve_image_startsWith h
  have hv : ¬ p.name = "valign" := fun e => by rw [e] at hsw; exact absurd hsw (by decide)
  have ht : ¬ p.name = "text-align" := fun e => by rw [e] at hsw; exact absurd hsw (by decide)
  have hh : ¬ p.name = "halign" := fun e => by rw [e] at hsw; exact absurd hsw (by decide)
  have ha : ¬ p.name = "align" := fun e => by rw [e] at hsw; exact absurd hsw (by decide)
  show getExtra p.name (getAcfFieldType p) = _
  rw [h]
  simp [getExtra, hv, ht, hh, ha]

theorem nameRuleHit_resolved (p : VueProp) (h : nameRuleHit p.name = true) :
    (∃ tag, getAcfFieldType p = some tag) ∧
    ∀ t : String, getAcfFieldType ⟨p.name, t⟩ = getAcfFieldType p := by
  obtain ⟨n, ty⟩ := p
  rw [nameRuleHit] at h
  simp only [Bool.or_eq_true, decide_eq_true_eq] at h
  rcases h with ((((((((hsw | h) | h) | h) | h) | h) | h) | h) | h)
  · exact ⟨⟨"image", by simp [getAcfFieldType, hsw]⟩,
      fun t => by simp [getAcfFieldType, hsw]⟩
  all_goals subst h
  all_goals exact ⟨⟨_, rfl⟩, fun t => rfl⟩

theorem fields_getElem (cn : String) (props : List VueProp) (i : Nat) :
    ((assembleGroup cn props).fields[i]?).map GroupField.name = (props[i]?).map VueProp.name ∧
    ((assembleGroup cn props).fields[i]?).map GroupField.key =
      (props[i]?).map (fun p => (assembleGroup cn props).key ++ "_" ++ p.name) := by
  refine ⟨?_, ?_⟩ <;> simp only [assembleGroup, List.getElem?_map, Option.map_map] <;>
    cases props[i]? <;> rfl

/-! Claim theorems. -/

/-- Claim C1: for every prop, `getAcfFieldType` evaluates its rules ordered and
first-match-wins, name rules before type rules, with the case-insensitive
fallback table string→text, boolean→true_false, number→number, array→repeater;
in particular a prop named "align" of declared type "array" resolves to
button_group. -/
theorem resolver_follows_ordered_rules :
    (∀ p : VueProp, getAcfFieldType p = specResolve p) ∧
    getAcfFieldType ⟨"align", "array"⟩ = some "button_group" :=
  ⟨resolve_eq, by decide⟩

/-- Claim C2 counterexample: the prop named "images" does not resolve to
gallery — the image-prefix rule fires first, so it resolves to image and the
gallery rule is unreachable. -/
theorem images_prop_not_gallery :
    ¬ getAcfFieldType ⟨"images", "array"⟩ = some "gallery" := by decide

/-- Claim C2 (amended): every prop whose resolved field type is image or
gallery carries the auxiliary settings return_format "array" and preview_size
"thumbnail"; in particular the prop named "images" — whose resolved type is
image, not gallery, because the image-prefix rule fires first — carries these
two auxiliary keys in its field config. -/
theorem image_gallery_aux_settings :
    (∀ p : VueProp,
      getAcfFieldType p = some "image" ∨ getAcfFieldType p = some "gallery" →
      (getAcfFieldConfig p).extra =
        [("return_format", JValue.s "array"), ("preview_size", JValue.s "thumbnail")]) ∧
    getAcfFieldType ⟨"images", "array"⟩ = some "image" ∧
    (getAcfFieldConfig ⟨"images", "array"⟩).extra =
      [("return_format", JValue.s "array"), ("preview_size", JValue.s "thumbnail")] := by
  refine ⟨fun p h => ?_, by decide, rfl⟩
  rcases h with h | h
  · exact image_extra h
  · exact absurd h (no_gallery p)

/-- Claim C2 witness: concrete application at the prop `imageHero : string`,
whose resolved type is image. -/
theorem image_gallery_aux_settings_witness :
    (getAcfFieldConfig ⟨"imageHero", "string"⟩).extra =
      [("return_format", JValue.s "array"), ("preview_size", JValue.s "thumbnail")] :=
  image_gallery_aux_settings.1 ⟨"imageHero", "string"⟩ (Or.inl (by decide))

/-- Claim C3 (the code, at the claim's failing input): a prop matched by no
name rule whose type is outside the fallback table makes `getAcfFieldType`
return `none` (JS `undefined`), and `getAcfFieldConfig` raises no error —
it embeds the undefined type in the produced field config. -/
theorem unmapped_type_yields_undefined :
    getAcfFieldType ⟨"hero", "object"⟩ = none ∧
    (getAcfFieldConfig ⟨"hero", "object"⟩).type = none :=
  ⟨rfl, rfl⟩

/-- Claim C4: `snakeCaseToWords` returns its argument with the first character
capitalised and a single space inserted at every position where a lowercase
letter or digit is immediately followed by an uppercase letter, and performs
no other change; hyphens pass through literally. -/
theorem naming_transform_spec :
    (∀ s : String, snakeCaseToWords s = ⟨specInsertSpaces (capFirst s.data)⟩) ∧
    snakeCaseToWords "halign" = "Halign" ∧
    snakeCaseToWords "textAlign" = "Text Align" ∧
    snakeCaseToWords "image1" = "Image1" ∧
    snakeCaseToWords "text-align" = "Text-align" :=
  ⟨snakeCaseToWords_eq, rfl, by decide, rfl, rfl⟩

/-- Claim C5: a prop named "valign" builds with type button_group and auxiliary
exactly the choices map start→Top / center→Center / end→Bottom; props named
"text-align", "halign" or "align" build with auxiliary exactly the choices map
left→Left / center→Center / right→Right — in each case a wholesale replacement
of any type-derived auxiliary, whatever the declared prop type. -/
theorem choice_overrides_exact : ∀ t : String,
    (getAcfFieldConfig ⟨"valign", t⟩).type = some "button_group" ∧
    (getAcfFieldConfig ⟨"valign", t⟩).extra = [("choices", JValue.o
      [("start", JValue.s "Top"), ("center", JValue.s "Center"),
       ("end", JValue.s "Bottom")])] ∧
    (getAcfFieldConfig ⟨"text-align", t⟩).extra = [("choices", JValue.o
      [("left", JValue.s "Left"), ("center", JValue.s "Center"),
       ("right", JValue.s "Right")])] ∧
    (getAcfFieldConfig ⟨"halign", t⟩).extra = [("choices", JValue.o
      [("left", JValue.s "Left"), ("center", JValue.s "Center"),
       ("right", JValue.s "Right")])] ∧
    (getAcfFieldConfig ⟨"align", t⟩).extra = [("choices", JValue.o
      [("left", JValue.s "Left"), ("center", JValue.s "Center"),
       ("right", JValue.s "Right")])] :=
  fun _ => ⟨rfl, rfl, rfl, rfl, rfl⟩

/-- Claim C6: the assembled group document has key
`"group_" ++ lowercase(componentName) ++ "_component"`, title
`"Component: " ++ componentName` with the original casing preserved, the
constants label_placement "left", active false and the one-entry
acfe_categories mapping component to component, and one field per prop in declaration
order whose key is the group key followed by an underscore and the prop
name. -/
theorem assembled_group_shape : ∀ (cn : String) (props : List VueProp),
    (assembleGroup cn props).key = "group_" ++ jsToLower cn ++ "_component" ∧
    (assembleGroup cn props).title = "Component: " ++ cn ∧
    (assembleGroup cn props).label_placement = "left" ∧
    (assembleGroup cn props).active = false ∧
    (assembleGroup cn props).acfe_categories = [("component", "component")] ∧
    (assembleGroup cn props).fields.length = props.length ∧
    ∀ i : Nat, ((assembleGroup cn props).fields[i]?).map GroupField.key =
      (props[i]?).map (fun p => (assembleGroup cn props).key ++ "_" ++ p.name) :=
  fun cn props =>
    ⟨rfl, rfl, rfl, rfl, rfl, by simp [assembleGroup],
     fun i => (fields_getElem cn props i).2⟩

/-- Claim C7: round-trip — at every index, the i-th field of the assembled
group document carries exactly the name of the i-th input prop (the emitted
document preserves the fields list, so parsing it back recovers these
names). -/
theorem fields_names_roundtrip : ∀ (cn : String) (props : List VueProp) (i : Nat),
    ((assembleGroup cn props).fields[i]?).map GroupField.name =
      (props[i]?).map VueProp.name :=
  fun cn props i => (fields_getElem cn props i).1

/-- Claim C8: determinism — two runs of the resolve/build/assemble pipeline on
identical input metadata produce identical group documents. -/
theorem pipeline_deterministic :
    ∀ (n₁ n₂ : String) (ps₁ ps₂ : List VueProp),
    n₁ = n₂ → ps₁ = ps₂ → assembleGroup n₁ ps₁ = assembleGroup n₂ ps₂ := by
  intro n₁ n₂ ps₁ ps₂ hn hp
  rw [hn, hp]

/-- Claim C8 witness: the two runs at the concrete component "Callout" with a
single `body : string` prop coincide. -/
theorem pipeline_deterministic_witness :
    assembleGroup "Callout" [⟨"body", "string"⟩] =
      assembleGroup "Callout" [⟨"body", "string"⟩] :=
  pipeline_deterministic "Callout" "Callout"
    [⟨"body", "string"⟩] [⟨"body", "string"⟩] rfl rfl

/-- Claim C9: the naming transform is idempotent — applying
`snakeCaseToWords` twice gives the same result as applying it once. -/
theorem naming_transform_idempotent :
    ∀ s : String, snakeCaseToWords (snakeCaseToWords s) = snakeCaseToWords s := by
  intro s
  rw [snakeCaseToWords_eq s, snakeCaseToWords_eq]
  show (⟨specInsertSpaces (capFirst (specInsertSpaces (capFirst s.data)))⟩ : String) = _
  rw [capFirst_fix, specInsertSpaces_id (chain'_specInsertSpaces _)]

/-- Claim C10: every prop matched by one of the six name-based rules receives
a defined field type tag that does not depend on the declared prop type, so
the result is defined even when the type lies outside the primitive set. -/
theorem name_rules_ignore_type :
    ∀ p : VueProp, nameRuleHit p.name = true →
    (∃ tag, getAcfFieldType p = some tag) ∧
    ∀ t : String, getAcfFieldType ⟨p.name, t⟩ = getAcfFieldType p :=
  nameRuleHit_resolved

/-- Claim C10 witness: concrete application at the prop `button` with a type
outside the primitive set. -/
theorem name_rules_ignore_type_witness :
    (∃ tag, getAcfFieldType ⟨"button", "weirdtype"⟩ = some tag) ∧
    ∀ t : String, getAcfFieldType ⟨"button", t⟩ =
      getAcfFieldType ⟨"button", "weirdtype"⟩ :=
  name_rules_ignore_type ⟨"button", "weirdtype"⟩ (by decide)
